import Mathlib

/-!
# Verification of the ytt transcript-discovery core

A shallow embedding of the core pipeline of the `ytt` repository
(`api.go`): video-ID extraction, caption-track-list discovery from the
watch-page HTML, language-based track selection, and timed-text XML
decoding.  Go strings are modelled as Lean strings (with UTF-8 byte
length made explicit where `len` matters), Go maps as association lists
with last-writer-wins insertion, `encoding/json` and `encoding/xml`
decoding as executable fueled recognizers, and `float64` attribute
values as exact rationals (every value occurring in a claim is exactly
representable).
-/

namespace Ytt

/-! ## String primitives (models of the Go `strings` package) -/

/-- If `lit` is a leading segment of `s`, return the remainder of `s`
after it. -/
def litAt : List Char → List Char → Option (List Char)
  | [], s => some s
  | _ :: _, [] => none
  | a :: la, c :: s => if a = c then litAt la s else none

/-- Model of `strings.Contains s sub`: does `sub` occur anywhere in `s`? -/
def containsSub (sub : List Char) : List Char → Bool
  | [] => (litAt sub []).isSome
  | c :: rest => (litAt sub (c :: rest)).isSome || containsSub sub rest

/-- The remainder of `s` after the first occurrence of `sub`
(meaningful only when `sub` does occur). -/
def afterFirst (sub : List Char) : List Char → List Char
  | [] =>
    match litAt sub [] with
    | some r => r
    | none => []
  | c :: rest =>
    match litAt sub (c :: rest) with
    | some r => r
    | none => afterFirst sub rest

/-- The part of `s` strictly before the first occurrence of `sub`
(all of `s` when `sub` does not occur). -/
def takeUntilSub (sub : List Char) : List Char → List Char
  | [] => []
  | c :: rest =>
    if (litAt sub (c :: rest)).isSome then []
    else c :: takeUntilSub sub rest

/-- Split `s` before and after the first occurrence of the character
`target`, dropping it; `none` when `target` does not occur. -/
def splitAtChar (target : Char) : List Char → Option (List Char × List Char)
  | [] => none
  | c :: rest =>
    if c = target then some ([], rest)
    else (splitAtChar target rest).map (fun p => (c :: p.1, p.2))

/-- Fueled model of Go `strings.Split s sep` for a non-empty separator:
splits around every (non-overlapping, left-to-right) occurrence of
`sep`. -/
def splitGoFuel (sep : List Char) : Nat → List Char → List (List Char)
  | _, [] => [[]]
  | 0, s => [s]
  | fuel + 1, c :: rest =>
    match litAt sep (c :: rest) with
    | some rem => [] :: splitGoFuel sep fuel rem
    | none =>
      match splitGoFuel sep fuel rest with
      | [] => [[c]]
      | p :: ps => (c :: p) :: ps

/-- Model of `strings.Split` (the fuel `s.length` always suffices). -/
def splitGo (sep s : List Char) : List (List Char) :=
  splitGoFuel sep s.length s

/-- The UTF-8 byte length of a string: the model of Go's `len` on
strings. -/
def goLen (s : String) : Nat :=
  (s.data.map Char.utf8Size).sum

/-- Model of `strings.ContainsAny s chars`. -/
def goContainsAny (s : String) (chars : List Char) : Bool :=
  s.data.any (fun c => chars.contains c)

/-! ## Go maps as association lists -/

/-- A Go `map[string]α`, modelled as an association list with unique
keys. -/
abbrev GoMap (α : Type) : Type := List (String × α)

/-- Map lookup (`m[k]`). -/
def mapLookup {α : Type} : GoMap α → String → Option α
  | [], _ => none
  | p :: rest, k => if p.1 = k then some p.2 else mapLookup rest k

/-- Map assignment (`m[k] = v`): last writer wins. -/
def mapInsert {α : Type} (m : GoMap α) (k : String) (v : α) : GoMap α :=
  (List.filter (fun p => p.1 != k) m) ++ [(k, v)]

/-- Build a Go map from a (possibly duplicated) field list, later
entries overwriting earlier ones — the way `encoding/json` fills a
`map[string]interface{}`. -/
def goMapOfFields {α : Type} (fields : List (String × α)) : GoMap α :=
  fields.foldl (fun m p => mapInsert m p.1 p.2) []

theorem mapLookup_nil {α : Type} (k : String) :
    mapLookup ([] : GoMap α) k = none := rfl

theorem mapLookup_append {α : Type} (m₁ m₂ : GoMap α) (k : String) :
    mapLookup (m₁ ++ m₂) k =
      match mapLookup m₁ k with
      | some v => some v
      | none => mapLookup m₂ k := by
  induction m₁ with
  | nil => simp [mapLookup]
  | cons p rest ih =>
    simp only [List.cons_append, mapLookup]
    by_cases h : p.1 = k
    · simp [h]
    · simp [h, ih]

theorem mapLookup_filter_ne {α : Type} (m : GoMap α) (k k' : String)
    (hne : k' ≠ k) :
    mapLookup (List.filter (fun p => p.1 != k) m) k' = mapLookup m k' := by
  induction m with
  | nil => rfl
  | cons p rest ih =>
    rw [List.filter_cons]
    by_cases h : p.1 = k
    · have hb : (p.1 != k) = false := by simp [h]
      have hp : ¬ p.1 = k' := fun hh => hne (hh.symm.trans h)
      rw [hb]
      simp only [Bool.false_eq_true, if_false, ih, mapLookup, if_neg hp]
    · have hb : (p.1 != k) = true := by simp [h]
      rw [hb]
      simp only [if_true, mapLookup, ih]

theorem mapLookup_filter_self {α : Type} (m : GoMap α) (k : String) :
    mapLookup (List.filter (fun p => p.1 != k) m) k = none := by
  induction m with
  | nil => rfl
  | cons p rest ih =>
    rw [List.filter_cons]
    by_cases h : p.1 = k
    · have hb : (p.1 != k) = false := by simp [h]
      rw [hb]
      simp only [Bool.false_eq_true, if_false, ih]
    · have hb : (p.1 != k) = true := by simp [h]
      rw [hb]
      simp only [mapLookup, if_neg h, ih, if_true]

/-! ## JSON values and a model of `encoding/json` decoding

`json.Unmarshal` into `map[string]interface{}` accepts exactly a single
JSON object (followed by nothing but whitespace); object keys are
filled into the map in order, later duplicates overwriting earlier
ones.  Numbers are kept as their source lexemes: no claim inspects a
JSON number. -/

inductive JValue where
  | null : JValue
  | jbool (b : Bool) : JValue
  | num (lexeme : String) : JValue
  | str (s : String) : JValue
  | arr (elems : List JValue) : JValue
  | obj (fields : List (String × JValue)) : JValue

/-- JSON / Go whitespace skipping. -/
def jsonWs (s : List Char) : List Char :=
  s.dropWhile (fun c => c == ' ' || c == '\t' || c == '\n' || c == '\r')

/-- ASCII decimal digit test. -/
def isDigitChar (c : Char) : Bool :=
  decide (48 ≤ c.toNat ∧ c.toNat ≤ 57)

/-- Hexadecimal digit value. -/
def hexVal (c : Char) : Option Nat :=
  if isDigitChar c then some (c.toNat - 48)
  else if decide (97 ≤ c.toNat ∧ c.toNat ≤ 102) then some (c.toNat - 87)
  else if decide (65 ≤ c.toNat ∧ c.toNat ≤ 70) then some (c.toNat - 55)
  else none

/-- Read the body of a JSON string literal (the opening quote already
consumed), decoding escapes the way `encoding/json` does; returns the
decoded content and the input after the closing quote. -/
def jsonStringRead : List Char → Option (List Char × List Char)
  | [] => none
  | '"' :: rest => some ([], rest)
  | '\\' :: 'u' :: a :: b :: c :: d :: rest =>
    match hexVal a, hexVal b, hexVal c, hexVal d with
    | some ha, some hb, some hc, some hd =>
      let n := ((ha * 16 + hb) * 16 + hc) * 16 + hd
      -- lone surrogates decode to U+FFFD, as in Go's json package
      let ch := if decide (0xD800 ≤ n ∧ n < 0xE000) then (Char.ofNat 0xFFFD)
                else Char.ofNat n
      (jsonStringRead rest).map (fun p => (ch :: p.1, p.2))
    | _, _, _, _ => none
  | '\\' :: e :: rest =>
    let dec : Option Char :=
      if e = '"' then some '"'
      else if e = '\\' then some '\\'
      else if e = '/' then some '/'
      else if e = 'b' then some (Char.ofNat 8)
      else if e = 'f' then some (Char.ofNat 12)
      else if e = 'n' then some '\n'
      else if e = 'r' then some '\r'
      else if e = 't' then some '\t'
      else none
    match dec with
    | some ch => (jsonStringRead rest).map (fun p => (ch :: p.1, p.2))
    | none => none
  | c :: rest =>
    if decide (c.toNat < 32) then none
    else (jsonStringRead rest).map (fun p => (c :: p.1, p.2))

/-- Read a JSON number lexeme (strict JSON grammar: no leading zeros,
digits required after `.` and the exponent marker). -/
def jsonNumRead (s : List Char) : Option (List Char × List Char) :=
  let signPart : List Char × List Char :=
    match s with
    | '-' :: r => (['-'], r)
    | _ => ([], s)
  let intStep : Option (List Char × List Char) :=
    match signPart.2 with
    | '0' :: r => some (signPart.1 ++ ['0'], r)
    | c :: r =>
      if isDigitChar c ∧ c ≠ '0' then
        some (signPart.1 ++ (c :: r.takeWhile isDigitChar), r.dropWhile isDigitChar)
      else none
    | [] => none
  match intStep with
  | none => none
  | some (ip, s2) =>
    let fracStep : Option (List Char × List Char) :=
      match s2 with
      | '.' :: r =>
        let ds := r.takeWhile isDigitChar
        if ds = [] then none
        else some (ip ++ '.' :: ds, r.dropWhile isDigitChar)
      | _ => some (ip, s2)
    match fracStep with
    | none => none
    | some (fp, s3) =>
      match s3 with
      | e :: r =>
        if e = 'e' ∨ e = 'E' then
          let signExp : List Char × List Char :=
            match r with
            | '+' :: r2 => (['+'], r2)
            | '-' :: r2 => (['-'], r2)
            | _ => ([], r)
          let ds := signExp.2.takeWhile isDigitChar
          if ds = [] then none
          else some (fp ++ e :: (signExp.1 ++ ds), signExp.2.dropWhile isDigitChar)
        else some (fp, s3)
      | [] => some (fp, s3)

/-- Mode of the fueled JSON reader: a single value, the element list of
an array (after `[`), or the field list of an object (after the opening
brace). -/
inductive JMode where
  | val : JMode
  | arrElems : JMode
  | objFields : JMode

/-- Intermediate result of the fueled JSON reader. -/
inductive JTmp where
  | v (x : JValue) : JTmp
  | elems (xs : List JValue) : JTmp
  | fields (xs : List (String × JValue)) : JTmp

/-- Fueled JSON reader (strict JSON grammar, as accepted by
`encoding/json`). -/
def jsonP : Nat → JMode → List Char → Option (JTmp × List Char)
  | 0, _, _ => none
  | fuel + 1, .val, s =>
    match jsonWs s with
    | [] => none
    | c :: rest =>
      if c = 'n' then (litAt (['u', 'l', 'l']) rest).map (fun r => (.v .null, r))
      else if c = 't' then
        (litAt (['r', 'u', 'e']) rest).map (fun r => (.v (.jbool true), r))
      else if c = 'f' then
        (litAt (['a', 'l', 's', 'e']) rest).map (fun r => (.v (.jbool false), r))
      else if c = '"' then
        (jsonStringRead rest).map (fun p => (.v (.str (String.mk p.1)), p.2))
      else if c = '[' then
        match jsonP fuel .arrElems (jsonWs rest) with
        | some (.elems xs, r) => some (.v (.arr xs), r)
        | _ => none
      else if c = '\x7b' then
        match jsonP fuel .objFields (jsonWs rest) with
        | some (.fields xs, r) => some (.v (.obj xs), r)
        | _ => none
      else
        (jsonNumRead (c :: rest)).map (fun p => (.v (.num (String.mk p.1)), p.2))
  | fuel + 1, .arrElems, s =>
    match s with
    | ']' :: r => some (.elems [], r)
    | _ =>
      match jsonP fuel .val s with
      | some (.v x, r) =>
        match jsonWs r with
        | ',' :: r2 =>
          match jsonWs r2 with
          | ']' :: _ => none
          | s' =>
            match jsonP fuel .arrElems s' with
            | some (.elems xs, r3) => some (.elems (x :: xs), r3)
            | _ => none
        | ']' :: r2 => some (.elems [x], r2)
        | _ => none
      | _ => none
  | fuel + 1, .objFields, s =>
    match s with
    | '\x7d' :: r => some (.fields [], r)
    | '"' :: r =>
      match jsonStringRead r with
      | none => none
      | some (key, r2) =>
        match jsonWs r2 with
        | ':' :: r3 =>
          match jsonP fuel .val r3 with
          | some (.v x, r4) =>
            match jsonWs r4 with
            | ',' :: r5 =>
              match jsonWs r5 with
              | '"' :: _ =>
                match jsonP fuel .objFields (jsonWs r5) with
                | some (.fields xs, r6) =>
                  some (.fields ((String.mk key, x) :: xs), r6)
                | _ => none
              | _ => none
            | '\x7d' :: r5 => some (.fields [(String.mk key, x)], r5)
            | _ => none
          | _ => none
        | _ => none
    | _ => none

/-- Model of `json.Unmarshal(data, &m)` for `m : map[string]interface{}`:
succeeds exactly on a single JSON object (plus surrounding whitespace),
returning its field list in source order. -/
def parseTopLevelObj (cs : List Char) : Option (List (String × JValue)) :=
  match jsonP (2 * cs.length + 4) .val cs with
  | some (.v (.obj fields), rest) =>
    if jsonWs rest = [] then some fields else none
  | _ => none

/-- Coerce a JSON value to a Go map, the way a type assertion
`v.(map[string]interface{})` combined with lookups on a `nil` map
behaves: a non-object yields the empty (nil) map. -/
def jAsObj : Option JValue → GoMap JValue
  | some (.obj fields) => goMapOfFields fields
  | _ => []

/-- Coerce an optional JSON value to a Go string, the way
`v.(string)` with a discarded `ok` does: non-strings yield `""`. -/
def jAsStr : Option JValue → String
  | some (.str s) => s
  | _ => ""

/-- Characterization of lookup after insertion. -/
theorem mapLookup_insert {α : Type} (m : GoMap α) (k k' : String) (v : α) :
    mapLookup (mapInsert m k v) k' =
      if k' = k then some v else mapLookup m k' := by
  unfold mapInsert
  rw [mapLookup_append]
  by_cases h : k' = k
  · subst h
    rw [mapLookup_filter_self]
    simp [mapLookup]
  · rw [mapLookup_filter_ne m k k' h]
    cases hl : mapLookup m k' with
    | none =>
      simp only [mapLookup, if_neg h]
      exact if_neg (fun hh : k = k' => h hh.symm)
    | some v' => simp [h]

/-! ## Error taxonomy (the `Err…` values of `api.go`, plus the
passed-through `json` / `xml` decode errors) -/

inductive YttError where
  | invalidCharacters : YttError
  | idTooShort : YttError
  | transcriptsUnavailable : YttError
  | malformedPayload : YttError
  | transcriptsDisabled : YttError
  | invalidFormat : YttError
  | noTranscriptFound : YttError
  | malformedTranscriptXML : YttError
deriving DecidableEq

instance {ε α : Type} [DecidableEq ε] [DecidableEq α] :
    DecidableEq (Except ε α)
  | .ok a, .ok b =>
    if h : a = b then .isTrue (by rw [h]) else
      .isFalse (fun hh => h (Except.ok.inj hh))
  | .ok _, .error _ => .isFalse (fun hh => Except.noConfusion hh)
  | .error _, .ok _ => .isFalse (fun hh => Except.noConfusion hh)
  | .error a, .error b =>
    if h : a = b then .isTrue (by rw [h]) else
      .isFalse (fun hh => h (Except.error.inj hh))

/-! ## Video-ID Resolver (`ExtractVideoID`)

The three patterns of `videoRegexpList` are embedded directly.  Each is
anchored at a position: an alternative literal (for the first pattern),
a `=`/`/` separator (first two patterns), then a captured run of eleven
characters outside the class `"&?/=%`.  All parts have fixed length, so
Go's leftmost-first regexp search is exactly "first position, in order
of alternatives, at which the whole pattern matches". -/

/-- Characters allowed inside a captured ID token: the complement of
the regexp class `["&?/=%]` (note: `<` is allowed here). -/
def idClassOK (c : Char) : Bool :=
  !(['"', '&', '?', '/', '=', '%'].contains c)

/-- Capture a run of exactly `n` class-allowed characters. -/
def takeClassRun : Nat → List Char → Option (List Char)
  | 0, _ => some []
  | _ + 1, [] => none
  | n + 1, c :: rest =>
    if idClassOK c then (takeClassRun n rest).map (fun l => c :: l) else none

/-- `(?:=|/)` followed by the eleven-character capture: the second
pattern, and the tail of every alternative of the first pattern. -/
def sepThenID : List Char → Option (List Char)
  | [] => none
  | c :: rest => if c = '=' ∨ c = '/' then takeClassRun 11 rest else none

/-- One alternative of the first pattern at a fixed position. -/
def patAlt (lit : List Char) (s : List Char) : Option (List Char) :=
  match litAt lit s with
  | some r => sepThenID r
  | none => none

/-- The first pattern `(?:v|embed|shorts|watch\?v)(?:=|/)([^"&?/=%]{11})`
at a fixed position (alternatives in source order). -/
def pat1At (s : List Char) : Option (List Char) :=
  (patAlt (("v").data) s).orElse (fun _ =>
    (patAlt (("embed").data) s).orElse (fun _ =>
      (patAlt (("shorts").data) s).orElse (fun _ =>
        patAlt (("watch?v").data) s)))

/-- Leftmost match: try the anchored pattern at every position, left to
right, returning the first capture. -/
def findFirst (pat : List Char → Option (List Char)) : List Char → Option (List Char)
  | [] => pat []
  | c :: rest =>
    match pat (c :: rest) with
    | some cap => some cap
    | none => findFirst pat rest

/-- The extraction loop of `ExtractVideoID`: when the input contains
`youtu` or any of `"?&/<%=`, the first of the three patterns that
matches anywhere replaces the candidate by its capture group. -/
def extractStep (videoID : String) : String :=
  if containsSub (("youtu").data) videoID.data ||
      goContainsAny videoID ['"', '?', '&', '/', '<', '%', '='] then
    match findFirst pat1At videoID.data with
    | some cap => String.mk cap
    | none =>
      match findFirst sepThenID videoID.data with
      | some cap => String.mk cap
      | none =>
        match findFirst (takeClassRun 11) videoID.data with
        | some cap => String.mk cap
        | none => videoID
  else videoID

/-- `ExtractVideoID` from `api.go`: extraction step, then validation
(reserved characters first, then minimum length ten in bytes). -/
def ExtractVideoID (videoID : String) : Except YttError String :=
  let v := extractStep videoID
  if goContainsAny v ['?', '&', '/', '<', '%', '='] then
    .error .invalidCharacters
  else if goLen v < 10 then .error .idTooShort
  else .ok v

/-! ## Caption-List Extractor (`extractCaptionsJSON`) -/

/-- The first boundary marker, `"captions":`. -/
def captionsMarker : List Char := ("\"captions\":").data

/-- The second boundary marker, `,"videoDetails"`. -/
def videoDetailsMarker : List Char := (",\"videoDetails\"").data

/-- Lines 115–128 of `api.go`, from `jsonPart` on: strip newlines
(`strings.ReplaceAll(jsonPart, "\n", "")`), `json.Unmarshal`, and
descend into `playerCaptionsTracklistRenderer` by type assertion. -/
def extractFromJsonPart (jsonPart : List Char) : Except YttError (GoMap JValue) :=
  match parseTopLevelObj (jsonPart.filter (fun c => c != '\n')) with
  | none => .error .malformedPayload
  | some fields =>
    match mapLookup (goMapOfFields fields) ("playerCaptionsTracklistRenderer") with
    | some (.obj f2) => .ok (goMapOfFields f2)
    | _ => .error .transcriptsDisabled

/-- Line 114 of `api.go`:
`jsonPart := strings.Split(parts[1], ",\"videoDetails\"")[0]`. -/
def extractFromPart1 (part1 : List Char) : Except YttError (GoMap JValue) :=
  extractFromJsonPart
    (match splitGo videoDetailsMarker part1 with
     | p :: _ => p
     | [] => [])

/-- Lines 109–112 of `api.go`: split on the captions marker and fail
with `ErrTranscriptsUnavailable` when `len(parts) <= 1`. -/
def extractFromParts : List (List Char) → Except YttError (GoMap JValue)
  | _ :: part1 :: _ => extractFromPart1 part1
  | _ => .error .transcriptsUnavailable

/-- `extractCaptionsJSON` from `api.go` (lines 108–129), assembled from
the staged bodies above. -/
def extractCaptionsJSON (html : String) : Except YttError (GoMap JValue) :=
  extractFromParts (splitGo captionsMarker html.data)

/-- The Caption-List Extractor as worded by the spec (claim C1), for
comparison with the source-derived `extractCaptionsJSON`: it takes “the
substring after the marker up to the next occurrence of
`,"videoDetails"`”, whereas the source takes `strings.Split`'s second
piece, which is additionally cut at the next occurrence of the captions
marker itself. -/
def extractCaptionsJSONSpec (html : String) : Except YttError (GoMap JValue) :=
  if containsSub captionsMarker html.data then
    extractFromJsonPart
      (takeUntilSub videoDetailsMarker (afterFirst captionsMarker html.data))
  else .error .transcriptsUnavailable

/-! ## Transcript Catalog Builder (`buildTranscriptList`) -/

structure Transcript where
  VideoID : String
  URL : String
  Language : String
  LanguageCode : String
  IsGenerated : Bool
deriving DecidableEq

structure TranscriptList where
  VideoID : String
  ManuallyCreatedTranscripts : GoMap Transcript
  GeneratedTranscripts : GoMap Transcript
deriving DecidableEq

/-- The per-track body of the `for` loop in `buildTranscriptList`:
every field degrades to the zero value when missing or of the wrong
dynamic type. -/
def trackToTranscript (videoID : String) (captionTrack : JValue) : Transcript :=
  let track := jAsObj (some captionTrack)
  let languageCode := jAsStr (mapLookup track ("languageCode"))
  let baseURL := jAsStr (mapLookup track ("baseUrl"))
  let name := jAsObj (mapLookup track ("name"))
  let simpleText := jAsStr (mapLookup name ("simpleText"))
  let kind := jAsStr (mapLookup track ("kind"))
  { VideoID := videoID, URL := baseURL, Language := simpleText,
    LanguageCode := languageCode, IsGenerated := kind == "asr" }

/-- One iteration of the catalog-building loop: classify the track by
its kind and assign it into the corresponding map. -/
def addTrack (videoID : String) (acc : GoMap Transcript × GoMap Transcript)
    (captionTrack : JValue) : GoMap Transcript × GoMap Transcript :=
  let t := trackToTranscript videoID captionTrack
  if t.IsGenerated then (acc.1, mapInsert acc.2 t.LanguageCode t)
  else (mapInsert acc.1 t.LanguageCode t, acc.2)

/-- `buildTranscriptList` from `api.go`. -/
def buildTranscriptList (videoID : String) (captionsJSON : GoMap JValue) :
    Except YttError TranscriptList :=
  match mapLookup captionsJSON ("captionTracks") with
  | some (.arr captionTracks) =>
    let maps := captionTracks.foldl (addTrack videoID) ([], [])
    .ok { VideoID := videoID, ManuallyCreatedTranscripts := maps.1,
          GeneratedTranscripts := maps.2 }
  | _ => .error .invalidFormat

/-! ## Track Selector (`FindTranscript`) -/

/-- `FindTranscript` from `api.go`: probe each requested code in order,
manual map first, then generated map. -/
def FindTranscript (tl : TranscriptList) : List String → Except YttError Transcript
  | [] => .error .noTranscriptFound
  | code :: rest =>
    match mapLookup tl.ManuallyCreatedTranscripts code with
    | some t => .ok t
    | none =>
      match mapLookup tl.GeneratedTranscripts code with
      | some t => .ok t
      | none => FindTranscript tl rest

/-! ## Timed-text XML: model of the `encoding/xml` decode used by
`parseTranscript`

`xml.Unmarshal` maps the document's root element onto the anonymous
struct; the field tagged `xml:"text"` collects the root's direct child
elements named `text`.  Each such child fills a `TranscriptEntry`:
its direct character data (entities decoded by the XML tokenizer)
becomes `Text`, and the `start` / `dur` attributes are converted with
`strconv.ParseFloat` — a conversion failure aborts the whole decode,
while an absent attribute simply leaves the zero value.  Attribute
values are modelled as exact rationals. -/

/-- Go/XML whitespace. -/
def isGoSpace (c : Char) : Bool :=
  c == ' ' || c == '\t' || c == '\n' || c == '\r' || c == '\x0b' || c == '\x0c'

def skipXmlWs (s : List Char) : List Char := s.dropWhile isGoSpace

def trimSpace (cs : List Char) : List Char :=
  ((cs.dropWhile isGoSpace).reverse.dropWhile isGoSpace).reverse

/-- The numeric value of a list of decimal digits. -/
def natOfDigits (ds : List Char) : Nat :=
  ds.foldl (fun n c => n * 10 + (c.toNat - 48)) 0

/-- Model of `strconv.ParseFloat` (with the surrounding space trimming
done by `encoding/xml`) on decimal forms, returning an exact rational. -/
def parseGoFloat (s : String) : Option Rat :=
  let cs := trimSpace s.data
  let signStep : Int × List Char :=
    match cs with
    | '+' :: r => (1, r)
    | '-' :: r => (-1, r)
    | _ => (1, cs)
  let ip := signStep.2.takeWhile isDigitChar
  let s2 := signStep.2.dropWhile isDigitChar
  let fracStep : List Char × List Char :=
    match s2 with
    | '.' :: r => (r.takeWhile isDigitChar, r.dropWhile isDigitChar)
    | _ => ([], s2)
  let fp := fracStep.1
  let s3 := fracStep.2
  if ip = [] ∧ fp = [] then none
  else
    let expStep : Option (Int × List Char) :=
      match s3 with
      | e :: r =>
        if e = 'e' ∨ e = 'E' then
          let esign : Int × List Char :=
            match r with
            | '+' :: rr => (1, rr)
            | '-' :: rr => (-1, rr)
            | _ => (1, r)
          let ds := esign.2.takeWhile isDigitChar
          if ds = [] then none
          else some (esign.1 * (natOfDigits ds : Int), esign.2.dropWhile isDigitChar)
        else some (0, s3)
      | [] => some (0, [])
    match expStep with
    | none => none
    | some (ex, rest) =>
      if rest = [] then
        let mant : Int :=
          signStep.1 * ((natOfDigits ip * 10 ^ fp.length + natOfDigits fp : Nat) : Int)
        let den : Nat := 10 ^ fp.length
        if 0 ≤ ex then some (mkRat (mant * ((10 ^ ex.toNat : Nat) : Int)) den)
        else some (mkRat mant (den * 10 ^ (-ex).toNat))
      else none

/-- A parsed XML tree: elements with attributes and children, and runs
of (entity-decoded) character data. -/
inductive XmlNode where
  | elem (name : String) (attrs : List (String × String)) (children : List XmlNode) : XmlNode
  | cdata (cs : List Char) : XmlNode

/-- Valid XML scalar values for character references. -/
def charOfScalar (n : Nat) : Option Char :=
  if decide (n < 0xD800 ∨ (0xE000 ≤ n ∧ n ≤ 0x10FFFF)) then some (Char.ofNat n)
  else none

def decNat (ds : List Char) : Option Nat :=
  if ds ≠ [] ∧ ds.all isDigitChar then some (natOfDigits ds) else none

def hexNat (ds : List Char) : Option Nat :=
  if ds = [] then none
  else ds.foldlM (fun n c => (hexVal c).map (fun h => n * 16 + h)) 0

/-- Decode the body of an entity reference (between `&` and `;`). -/
def decodeEntityBody (body : List Char) : Option Char :=
  if body = ("amp").data then some '&'
  else if body = ("lt").data then some '<'
  else if body = ("gt").data then some '>'
  else if body = ("quot").data then some '"'
  else if body = ("apos").data then some '\x27'
  else
    match body with
    | '#' :: 'x' :: ds => (hexNat ds).bind charOfScalar
    | '#' :: ds => (decNat ds).bind charOfScalar
    | _ => none

/-- Decode all entity references in a raw run of characters (fueled;
the fuel `length + 1` always suffices). -/
def decodeEntities : Nat → List Char → Option (List Char)
  | 0, _ => none
  | _ + 1, [] => some []
  | fuel + 1, '&' :: rest =>
    match splitAtChar ';' rest with
    | none => none
    | some (body, after) =>
      match decodeEntityBody body with
      | none => none
      | some ch => (decodeEntities fuel after).map (fun l => ch :: l)
  | fuel + 1, c :: rest => (decodeEntities fuel rest).map (fun l => c :: l)

/-- Characters that may appear in an element or attribute name. -/
def xmlNameChar (c : Char) : Bool :=
  !(isGoSpace c || c == '/' || c == '>' || c == '=' || c == '<' || c == '"' || c == '&')

def readName (s : List Char) : List Char × List Char :=
  (s.takeWhile xmlNameChar, s.dropWhile xmlNameChar)

/-- Read the attribute list of a start tag, up to and including the
closing `>` (or `/>`); returns the attributes in source order and
whether the tag was self-closing. -/
def readAttrs : Nat → List Char → Option (List (String × String) × Bool × List Char)
  | 0, _ => none
  | fuel + 1, s =>
    match skipXmlWs s with
    | '>' :: r => some ([], false, r)
    | '/' :: '>' :: r => some ([], true, r)
    | s' =>
      let nm := readName s'
      if nm.1 = [] then none
      else
        match skipXmlWs nm.2 with
        | '=' :: s2 =>
          match skipXmlWs s2 with
          | '"' :: s3 =>
            match splitAtChar '"' s3 with
            | none => none
            | some (raw, s4) =>
              match decodeEntities (raw.length + 1) raw with
              | none => none
              | some v =>
                match readAttrs fuel s4 with
                | some (attrs, sc, r) =>
                  some ((String.mk nm.1, String.mk v) :: attrs, sc, r)
                | none => none
          | _ => none
        | _ => none

/-- Merge a character into the node list under construction,
accumulating adjacent character data into one `cdata` run. -/
def consText (ch : Char) : List XmlNode × List Char → List XmlNode × List Char
  | (.cdata cs :: ns, rest) => (.cdata (ch :: cs) :: ns, rest)
  | (ns, rest) => (.cdata [ch] :: ns, rest)

/-- Fueled tokenizer/tree-builder for a run of sibling nodes; stops in
front of a closing tag or at the end of input.  Mirrors the strict
well-formedness checks of `encoding/xml`: matching close tags, defined
entities only. -/
def parseXmlNodes : Nat → List Char → Option (List XmlNode × List Char)
  | 0, _ => none
  | _ + 1, [] => some ([], [])
  | _ + 1, '<' :: '/' :: rest => some ([], '<' :: '/' :: rest)
  | fuel + 1, '<' :: rest =>
    let nm := readName rest
    if nm.1 = [] then none
    else
      match readAttrs (nm.2.length + 1) nm.2 with
      | none => none
      | some (attrs, true, r) =>
        match parseXmlNodes fuel r with
        | none => none
        | some (ns, r2) => some (.elem (String.mk nm.1) attrs [] :: ns, r2)
      | some (attrs, false, r) =>
        match parseXmlNodes fuel r with
        | none => none
        | some (children, r2) =>
          match r2 with
          | '<' :: '/' :: r3 =>
            match litAt nm.1 r3 with
            | none => none
            | some r4 =>
              match skipXmlWs r4 with
              | '>' :: r5 =>
                match parseXmlNodes fuel r5 with
                | none => none
                | some (ns, r6) =>
                  some (.elem (String.mk nm.1) attrs children :: ns, r6)
              | _ => none
          | _ => none
  | fuel + 1, '&' :: rest =>
    match splitAtChar ';' rest with
    | none => none
    | some (body, after) =>
      match decodeEntityBody body with
      | none => none
      | some ch => (parseXmlNodes fuel after).map (consText ch)
  | fuel + 1, c :: rest => (parseXmlNodes fuel rest).map (consText c)

/-- Model of the document-level behaviour of `xml.Unmarshal`: find the
first element of the input, parse it completely (erroring on malformed
content inside it), and ignore anything after it. -/
def parseXmlDoc (s : String) : Option XmlNode :=
  match s.data.dropWhile (fun c => c != '<') with
  | '<' :: rest =>
    let nm := readName rest
    if nm.1 = [] then none
    else
      match readAttrs (nm.2.length + 1) nm.2 with
      | none => none
      | some (attrs, true, _) => some (.elem (String.mk nm.1) attrs [])
      | some (attrs, false, r) =>
        match parseXmlNodes (r.length + 1) r with
        | none => none
        | some (children, r2) =>
          match r2 with
          | '<' :: '/' :: r3 =>
            match litAt nm.1 r3 with
            | none => none
            | some r4 =>
              match skipXmlWs r4 with
              | '>' :: _ => some (.elem (String.mk nm.1) attrs children)
              | _ => none
          | _ => none
  | _ => none

/-! ## Transcript Fetcher/Decoder (`parseTranscript`, `removeHTMLTags`) -/

structure TranscriptEntry where
  Text : String
  Start : Rat
  Duration : Rat
deriving DecidableEq

/-- Fill the attribute-mapped fields of one `TranscriptEntry` the way
`encoding/xml` does: iterate the attributes, converting `start` and
`dur` with `ParseFloat` (a failed conversion aborts the decode), and
ignoring all other attributes; unmatched fields keep their zero
value. -/
def attrFold (attrs : List (String × String)) : Option (Rat × Rat) :=
  attrs.foldlM
    (fun acc kv =>
      if kv.1 = "start" then (parseGoFloat kv.2).map (fun q => (q, acc.2))
      else if kv.1 = "dur" then (parseGoFloat kv.2).map (fun q => (acc.1, q))
      else some acc)
    ((0 : Rat), (0 : Rat))

/-- The accumulated direct character data of an element's children
(child elements are skipped wholesale, as unmatched fields are). -/
def childText (children : List XmlNode) : String :=
  String.mk (children.foldr
    (fun n acc =>
      match n with
      | .cdata cs => cs ++ acc
      | .elem _ _ _ => acc)
    [])

/-- Decode one `<text>` element into a `TranscriptEntry`. -/
def entryOfElem : XmlNode → Option TranscriptEntry
  | .elem _ attrs children =>
    (attrFold attrs).map
      (fun p => { Text := childText children, Start := p.1, Duration := p.2 })
  | .cdata _ => none

/-- Is this node an element named `text`? -/
def isTextElem : XmlNode → Bool
  | .elem nm _ _ => nm == "text"
  | .cdata _ => false

/-- The root's direct child elements named `text`, in document order —
the nodes collected by the `xml:"text"` field tag. -/
def textChildren : XmlNode → List XmlNode
  | .elem _ _ cs => cs.filter isTextElem
  | .cdata _ => []

/-- Decode the collected `<text>` elements in order; the first failing
attribute conversion aborts the whole decode. -/
def entriesOf : List XmlNode → Option (List TranscriptEntry)
  | [] => some []
  | n :: ns =>
    match entryOfElem n with
    | none => none
    | some e => (entriesOf ns).map (fun l => e :: l)

/-- Fueled core of `removeHTMLTags`: repeatedly delete the leftmost
match of `<[^>]*>` (from a `<` through the first `>` after it). -/
def stripTagsAux : Nat → List Char → List Char
  | 0, s => s
  | _ + 1, [] => []
  | fuel + 1, c :: rest =>
    if c = '<' then
      match splitAtChar '>' rest with
      | some p => stripTagsAux fuel p.2
      | none => c :: rest
    else c :: stripTagsAux fuel rest

/-- `removeHTMLTags` from `api.go`: `regexp.MustCompile("<[^>]*>").ReplaceAllString(text, "")`. -/
def removeHTMLTags (text : String) : String :=
  String.mk (stripTagsAux text.data.length text.data)

/-- `parseTranscript` from `api.go`: XML-decode the document into the
entry slice, then strip markup tags from each entry's text. -/
def parseTranscript (xmlData : String) : Except YttError (List TranscriptEntry) :=
  match parseXmlDoc xmlData with
  | none => .error .malformedTranscriptXML
  | some root =>
    match entriesOf (textChildren root) with
    | none => .error .malformedTranscriptXML
    | some entries =>
      .ok (entries.map (fun e => { e with Text := removeHTMLTags e.Text }))

/-! ## Lemmas about the `strings.Split` model -/

theorem litAt_some_length {sub s r : List Char} (h : litAt sub s = some r) :
    sub.length + r.length = s.length := by
  induction sub generalizing s with
  | nil =>
    simp only [litAt, Option.some.injEq] at h
    simp [← h]
  | cons a la ih =>
    cases s with
    | nil => simp [litAt] at h
    | cons c s' =>
      simp only [litAt] at h
      by_cases hac : a = c
      · rw [if_pos hac] at h
        have := ih h
        simp only [List.length_cons]
        omega
      · rw [if_neg hac] at h
        cases h

theorem litAt_nil_right {sub : List Char} (hsub : sub ≠ []) :
    litAt sub ([] : List Char) = none := by
  cases sub with
  | nil => exact absurd rfl hsub
  | cons a la => rfl

theorem containsSub_nil_right {sub : List Char} (hsub : sub ≠ []) :
    containsSub sub ([] : List Char) = false := by
  simp [containsSub, litAt_nil_right hsub]

theorem takeUntilSub_of_not_contains {sep s : List Char}
    (h : containsSub sep s = false) : takeUntilSub sep s = s := by
  induction s with
  | nil => rfl
  | cons c rest ih =>
    simp only [containsSub, Bool.or_eq_false_iff] at h
    simp only [takeUntilSub, h.1, Bool.false_eq_true, if_false]
    rw [ih h.2]

theorem splitGoFuel_irrel (sep : List Char) (hsep : sep ≠ []) :
    ∀ fuel fuel' s, s.length ≤ fuel → s.length ≤ fuel' →
      splitGoFuel sep fuel s = splitGoFuel sep fuel' s := by
  intro fuel
  induction fuel with
  | zero =>
    intro fuel' s hf _
    have : s = [] := List.length_eq_zero.mp (Nat.le_zero.mp hf)
    subst this
    cases fuel' <;> rfl
  | succ fuel ih =>
    intro fuel' s hf hf'
    cases s with
    | nil => cases fuel' <;> rfl
    | cons c rest =>
      cases fuel' with
      | zero => simp at hf'
      | succ f' =>
        simp only [splitGoFuel]
        cases hm : litAt sep (c :: rest) with
        | some rem =>
          have hlen := litAt_some_length hm
          have hseplen : 1 ≤ sep.length := List.length_pos.mpr hsep
          have h1 : rem.length ≤ fuel := by
            simp only [List.length_cons] at hlen hf; omega
          have h2 : rem.length ≤ f' := by
            simp only [List.length_cons] at hlen hf'; omega
          show [] :: splitGoFuel sep fuel rem = [] :: splitGoFuel sep f' rem
          rw [ih f' rem h1 h2]
        | none =>
          have h1 : rest.length ≤ fuel := by
            simp only [List.length_cons] at hf; omega
          have h2 : rest.length ≤ f' := by
            simp only [List.length_cons] at hf'; omega
          show (match splitGoFuel sep fuel rest with
                | [] => [[c]]
                | p :: ps => (c :: p) :: ps) =
              (match splitGoFuel sep f' rest with
                | [] => [[c]]
                | p :: ps => (c :: p) :: ps)
          rw [ih f' rest h1 h2]

theorem splitGoFuel_of_not_contains {sep : List Char} {s : List Char}
    {fuel : Nat} (h : containsSub sep s = false) (hf : s.length ≤ fuel) :
    splitGoFuel sep fuel s = [s] := by
  induction fuel generalizing s with
  | zero =>
    have : s = [] := List.length_eq_zero.mp (Nat.le_zero.mp hf)
    subst this; rfl
  | succ fuel ih =>
    cases s with
    | nil => rfl
    | cons c rest =>
      simp only [containsSub, Bool.or_eq_false_iff] at h
      have hnone : litAt sep (c :: rest) = none := by
        cases hm : litAt sep (c :: rest) with
        | none => rfl
        | some rem => rw [hm] at h; simp at h
      simp only [splitGoFuel, hnone]
      rw [ih h.2 (by simp only [List.length_cons] at hf; omega)]

theorem splitGoFuel_of_contains {sep : List Char} (hsep : sep ≠ [])
    {s : List Char} {fuel : Nat} (h : containsSub sep s = true)
    (hf : s.length ≤ fuel) :
    splitGoFuel sep fuel s =
      takeUntilSub sep s :: splitGo sep (afterFirst sep s) := by
  induction fuel generalizing s with
  | zero =>
    have : s = [] := List.length_eq_zero.mp (Nat.le_zero.mp hf)
    subst this
    rw [containsSub_nil_right hsep] at h
    cases h
  | succ fuel ih =>
    cases s with
    | nil =>
      rw [containsSub_nil_right hsep] at h
      cases h
    | cons c rest =>
      cases hm : litAt sep (c :: rest) with
      | some rem =>
        have hlen := litAt_some_length hm
        have hseplen : 1 ≤ sep.length := List.length_pos.mpr hsep
        simp only [splitGoFuel, hm, takeUntilSub, Option.isSome_some, if_true,
          afterFirst]
        have hr : rem.length ≤ fuel := by
          simp only [List.length_cons] at hlen hf; omega
        rw [splitGoFuel_irrel sep hsep fuel rem.length rem hr (le_refl _)]
        rfl
      | none =>
        have hrest : containsSub sep rest = true := by
          simp only [containsSub, hm, Option.isSome_none, Bool.false_or] at h
          exact h
        simp only [splitGoFuel, hm, takeUntilSub, Option.isSome_none,
          Bool.false_eq_true, if_false, afterFirst]
        rw [ih hrest (by simp only [List.length_cons] at hf; omega)]

theorem splitGo_of_not_contains {sep s : List Char}
    (h : containsSub sep s = false) : splitGo sep s = [s] :=
  splitGoFuel_of_not_contains h (le_refl _)

theorem splitGo_of_contains {sep : List Char} (hsep : sep ≠ [])
    {s : List Char} (h : containsSub sep s = true) :
    splitGo sep s = takeUntilSub sep s :: splitGo sep (afterFirst sep s) :=
  splitGoFuel_of_contains hsep h (le_refl _)

/-- The head of `strings.Split s sep` is always the part of `s` before
the first occurrence of `sep`. -/
theorem splitGo_head {sep : List Char} (hsep : sep ≠ []) (s : List Char) :
    ∃ t, splitGo sep s = takeUntilSub sep s :: t := by
  cases hc : containsSub sep s with
  | false =>
    refine ⟨[], ?_⟩
    rw [splitGo_of_not_contains hc, takeUntilSub_of_not_contains hc]
  | true => exact ⟨_, splitGo_of_contains hsep hc⟩

/-! ## Claim C1: the Caption-List Extractor -/

theorem captionsMarker_ne_nil : captionsMarker ≠ [] := by decide

theorem videoDetailsMarker_ne_nil : videoDetailsMarker ≠ [] := by decide

/-- The fragment `extractCaptionsJSON` actually decodes (before newline
stripping): by the `strings.Split` semantics, the text after the first
captions marker is cut both at the next occurrence of the captions
marker itself and at the next occurrence of `,"videoDetails"`. -/
def captionsFragment (html : String) : List Char :=
  takeUntilSub videoDetailsMarker
    (takeUntilSub captionsMarker (afterFirst captionsMarker html.data))

theorem extractCaptionsJSON_of_not_contains {html : String}
    (hc : containsSub captionsMarker html.data = false) :
    extractCaptionsJSON html = .error .transcriptsUnavailable := by
  unfold extractCaptionsJSON
  rw [splitGo_of_not_contains hc]
  rfl

theorem extractCaptionsJSON_of_contains {html : String}
    (hc : containsSub captionsMarker html.data = true) :
    extractCaptionsJSON html = extractFromJsonPart (captionsFragment html) := by
  unfold extractCaptionsJSON
  rw [splitGo_of_contains captionsMarker_ne_nil hc]
  obtain ⟨t, ht⟩ :=
    splitGo_head captionsMarker_ne_nil (afterFirst captionsMarker html.data)
  rw [ht]
  show extractFromPart1 (takeUntilSub captionsMarker (afterFirst captionsMarker html.data)) = _
  unfold extractFromPart1
  obtain ⟨t2, ht2⟩ :=
    splitGo_head videoDetailsMarker_ne_nil
      (takeUntilSub captionsMarker (afterFirst captionsMarker html.data))
  rw [ht2]
  rfl

theorem extractFromJsonPart_ne_unavailable (jsonPart : List Char) :
    extractFromJsonPart jsonPart ≠ .error .transcriptsUnavailable := by
  cases hp : parseTopLevelObj (jsonPart.filter (fun c => c != '\n')) with
  | none =>
    simp only [extractFromJsonPart, hp]
    intro h
    exact absurd (Except.error.inj h) (by decide)
  | some fields =>
    cases hl : mapLookup (goMapOfFields fields) ("playerCaptionsTracklistRenderer") with
    | none =>
      simp only [extractFromJsonPart, hp, hl]
      intro h
      exact absurd (Except.error.inj h) (by decide)
    | some v =>
      cases v with
      | obj f2 =>
        simp only [extractFromJsonPart, hp, hl]
        intro h
        cases h
      | null =>
        simp only [extractFromJsonPart, hp, hl]
        intro h
        exact absurd (Except.error.inj h) (by decide)
      | jbool b =>
        simp only [extractFromJsonPart, hp, hl]
        intro h
        exact absurd (Except.error.inj h) (by decide)
      | num l =>
        simp only [extractFromJsonPart, hp, hl]
        intro h
        exact absurd (Except.error.inj h) (by decide)
      | str s =>
        simp only [extractFromJsonPart, hp, hl]
        intro h
        exact absurd (Except.error.inj h) (by decide)
      | arr l =>
        simp only [extractFromJsonPart, hp, hl]
        intro h
        exact absurd (Except.error.inj h) (by decide)

/-- **C1 (amended).**  For every watch-page document string,
`extractCaptionsJSON` fails with `TranscriptsUnavailable` exactly when
the marker `"captions":` is absent.  When the marker is present, the
fragment it decodes is the substring after the first occurrence of the
marker, truncated both at the next occurrence of the marker itself and
at the next occurrence of `,"videoDetails"` (the claim's description —
truncation at `,"videoDetails"` only — mis-describes documents in which
the captions marker recurs first).  That fragment, with newlines
stripped, is JSON-decoded: a parse failure yields the
`MalformedPayload` error, and on success the result is
`TranscriptsDisabled` exactly when the `playerCaptionsTracklistRenderer`
field is absent or not an object, and otherwise that object. -/
theorem extractCaptionsJSON_contract (html : String) :
    (extractCaptionsJSON html = .error .transcriptsUnavailable ↔
      containsSub captionsMarker html.data = false) ∧
    (containsSub captionsMarker html.data = true →
      (parseTopLevelObj ((captionsFragment html).filter (fun c => c != '\n')) =
          none →
        extractCaptionsJSON html = .error .malformedPayload) ∧
      (∀ fields,
        parseTopLevelObj ((captionsFragment html).filter (fun c => c != '\n')) =
            some fields →
        ((∀ f2,
            mapLookup (goMapOfFields fields) ("playerCaptionsTracklistRenderer") ≠
              some (JValue.obj f2)) →
          extractCaptionsJSON html = .error .transcriptsDisabled) ∧
        (∀ f2,
          mapLookup (goMapOfFields fields) ("playerCaptionsTracklistRenderer") =
              some (JValue.obj f2) →
          extractCaptionsJSON html = .ok (goMapOfFields f2)))) := by
  constructor
  · constructor
    · intro h
      cases hc : containsSub captionsMarker html.data with
      | false => rfl
      | true =>
        rw [extractCaptionsJSON_of_contains hc] at h
        exact absurd h (extractFromJsonPart_ne_unavailable _)
    · intro hc
      exact extractCaptionsJSON_of_not_contains hc
  · intro hc
    rw [extractCaptionsJSON_of_contains hc]
    constructor
    · intro hp
      simp only [extractFromJsonPart, hp]
    · intro fields hp
      constructor
      · intro hno
        cases hl : mapLookup (goMapOfFields fields) ("playerCaptionsTracklistRenderer") with
        | none => simp only [extractFromJsonPart, hp, hl]
        | some v =>
          cases v with
          | obj f2 => exact absurd hl (hno f2)
          | null => simp only [extractFromJsonPart, hp, hl]
          | jbool b => simp only [extractFromJsonPart, hp, hl]
          | num l => simp only [extractFromJsonPart, hp, hl]
          | str s => simp only [extractFromJsonPart, hp, hl]
          | arr l => simp only [extractFromJsonPart, hp, hl]
      · intro f2 hl
        simp only [extractFromJsonPart, hp, hl]

/-- Witness for C1's amended contract: a page without the captions
marker fails with `TranscriptsUnavailable`. -/
theorem extractCaptionsJSON_contract_witness :
    extractCaptionsJSON ("<html>no captions at all</html>") =
      .error .transcriptsUnavailable :=
  (extractCaptionsJSON_contract ("<html>no captions at all</html>")).1.mpr
    (by decide)

/-- A document in which the captions marker occurs a second time before
`,"videoDetails"`: used to separate the source's `strings.Split`
semantics from the claim's "up to the next `,"videoDetails"`" wording. -/
def c1Html : String :=
  "\"captions\":\x7b\"playerCaptionsTracklistRenderer\":\x7b\x7d\x7d\"captions\":junk,\"videoDetails\""

/-- **Counterexample to C1 as stated.**  On `c1Html` the source code
parses the piece between the two captions markers — a well-formed JSON
object — and returns its `playerCaptionsTracklistRenderer` object,
while the claim's reading (substring after the marker up to the next
`,"videoDetails"`) has trailing garbage after the object, fails to
parse, and therefore predicts a `MalformedPayload` failure. -/
theorem extractCaptionsJSON_claim_counterexample :
    extractCaptionsJSON c1Html = .ok [] ∧
    extractCaptionsJSONSpec c1Html = .error .malformedPayload ∧
    (Except.ok ([] : GoMap JValue) ≠
      (.error .malformedPayload : Except YttError (GoMap JValue))) :=
  ⟨rfl, rfl, fun h => Except.noConfusion h⟩

/-! ## Claim C2: validation in the Video-ID Resolver -/

/-- **C2.**  For every raw input, after the extraction step (or
pass-through) `ExtractVideoID` fails with `InvalidCharacters` if the
candidate still contains a character of `?&/<%=`, otherwise fails with
`IDTooShort` if its length is below ten, and otherwise returns the
candidate. -/
theorem ExtractVideoID_validation (input : String) :
    (goContainsAny (extractStep input) ['?', '&', '/', '<', '%', '='] = true →
      ExtractVideoID input = .error .invalidCharacters) ∧
    (goContainsAny (extractStep input) ['?', '&', '/', '<', '%', '='] = false →
      goLen (extractStep input) < 10 →
      ExtractVideoID input = .error .idTooShort) ∧
    (goContainsAny (extractStep input) ['?', '&', '/', '<', '%', '='] = false →
      ¬ goLen (extractStep input) < 10 →
      ExtractVideoID input = .ok (extractStep input)) := by
  refine ⟨fun h => ?_, fun h1 h2 => ?_, fun h1 h2 => ?_⟩
  · simp only [ExtractVideoID, h, if_true]
  · simp only [ExtractVideoID, h1, Bool.false_eq_true, if_false, h2, if_true]
  · simp only [ExtractVideoID, h1, Bool.false_eq_true, if_false, h2]

/-- Witness for C2 at a bare eleven-character ID. -/
theorem ExtractVideoID_validation_witness :
    goContainsAny (extractStep ("dQw4w9WgXcQ")) ['?', '&', '/', '<', '%', '='] = false ∧
    ¬ goLen (extractStep ("dQw4w9WgXcQ")) < 10 ∧
    ExtractVideoID ("dQw4w9WgXcQ") = .ok (extractStep ("dQw4w9WgXcQ")) :=
  ⟨by decide, by decide,
    (ExtractVideoID_validation ("dQw4w9WgXcQ")).2.2 (by decide) (by decide)⟩

/-! ## Claim C3: the Track Selector -/

/-- One probe of the selector: the human-authored mapping first, then
the generated mapping. -/
def probeLang (tl : TranscriptList) (code : String) : Option Transcript :=
  match mapLookup tl.ManuallyCreatedTranscripts code with
  | some t => some t
  | none => mapLookup tl.GeneratedTranscripts code

theorem FindTranscript_eq_findSome (tl : TranscriptList) (codes : List String) :
    FindTranscript tl codes =
      match codes.findSome? (probeLang tl) with
      | some t => .ok t
      | none => .error .noTranscriptFound := by
  induction codes with
  | nil => rfl
  | cons c rest ih =>
    rw [List.findSome?_cons]
    cases hm : mapLookup tl.ManuallyCreatedTranscripts c with
    | some t => simp only [FindTranscript, hm, probeLang]
    | none =>
      cases hg : mapLookup tl.GeneratedTranscripts c with
      | some t => simp only [FindTranscript, hm, hg, probeLang]
      | none => simp only [FindTranscript, hm, hg, probeLang, ih]

theorem FindTranscript_error_iff (tl : TranscriptList) (codes : List String) :
    FindTranscript tl codes = .error .noTranscriptFound ↔
      ∀ c ∈ codes, mapLookup tl.ManuallyCreatedTranscripts c = none ∧
        mapLookup tl.GeneratedTranscripts c = none := by
  induction codes with
  | nil => simp [FindTranscript]
  | cons c rest ih =>
    cases hm : mapLookup tl.ManuallyCreatedTranscripts c with
    | some t => simp [FindTranscript, hm]
    | none =>
      cases hg : mapLookup tl.GeneratedTranscripts c with
      | some t => simp [FindTranscript, hm, hg]
      | none => simp [FindTranscript, hm, hg, ih]

/-- **C3.**  `FindTranscript` returns the first descriptor found by
probing, for each requested code in order, the human-authored mapping
and then the generated mapping; it fails with `NoTranscriptFound`
exactly when no requested code is a key of either mapping — in
particular, on an empty catalog it fails for every language list. -/
theorem FindTranscript_contract (tl : TranscriptList) (codes : List String) :
    (FindTranscript tl codes =
      match codes.findSome? (probeLang tl) with
      | some t => .ok t
      | none => .error .noTranscriptFound) ∧
    (FindTranscript tl codes = .error .noTranscriptFound ↔
      ∀ c ∈ codes, mapLookup tl.ManuallyCreatedTranscripts c = none ∧
        mapLookup tl.GeneratedTranscripts c = none) ∧
    (∀ (vid : String) (codes' : List String),
      FindTranscript
        { VideoID := vid, ManuallyCreatedTranscripts := [],
          GeneratedTranscripts := [] } codes' =
        .error .noTranscriptFound) := by
  refine ⟨FindTranscript_eq_findSome tl codes, FindTranscript_error_iff tl codes,
    fun vid codes' => ?_⟩
  rw [FindTranscript_error_iff]
  intro c _
  exact ⟨rfl, rfl⟩

/-- Witness for C3: end-to-end scenario C — selecting `["fr", "en"]`
against a catalog that has only an `"en"` human track returns that
track. -/
theorem FindTranscript_contract_witness :
    FindTranscript
      { VideoID := "v",
        ManuallyCreatedTranscripts :=
          [("en", { VideoID := "v", URL := "u", Language := "English",
                    LanguageCode := "en", IsGenerated := false })],
        GeneratedTranscripts := [] }
      ["fr", "en"] =
      .ok { VideoID := "v", URL := "u", Language := "English",
            LanguageCode := "en", IsGenerated := false } :=
  (FindTranscript_contract
    { VideoID := "v",
      ManuallyCreatedTranscripts :=
        [("en", { VideoID := "v", URL := "u", Language := "English",
                  LanguageCode := "en", IsGenerated := false })],
      GeneratedTranscripts := [] }
    ["fr", "en"]).1.trans (by decide)

/-! ## Claim C9: idempotence of markup-tag stripping -/

/-- `noTagB l` holds when no `<` in `l` is followed (anywhere later) by
a `>` — exactly the strings on which the tag regexp has no match. -/
def noTagB : List Char → Bool
  | [] => true
  | c :: rest => if c = '<' then !(rest.contains '>') else noTagB rest

theorem splitAtChar_none_iff {t : Char} {s : List Char} :
    splitAtChar t s = none ↔ s.contains t = false := by
  induction s with
  | nil => simp [splitAtChar]
  | cons c rest ih =>
    by_cases hc : c = t
    · subst hc
      simp [splitAtChar, List.contains_cons]
    · have hbe : (t == c) = false :=
        beq_eq_false_iff_ne.mpr (fun hh => hc hh.symm)
      simp only [splitAtChar, if_neg hc, Option.map_eq_none', ih,
        List.contains_cons, hbe, Bool.false_or]

theorem splitAtChar_some_length {t : Char} {s : List Char}
    {p : List Char × List Char} (h : splitAtChar t s = some p) :
    p.2.length < s.length := by
  induction s generalizing p with
  | nil => cases h
  | cons c rest ih =>
    simp only [splitAtChar] at h
    by_cases hc : c = t
    · rw [if_pos hc] at h
      cases h
      simp
    · rw [if_neg hc] at h
      cases hsp : splitAtChar t rest with
      | none => rw [hsp] at h; cases h
      | some q =>
        rw [hsp] at h
        cases h
        have := ih hsp
        simp only [List.length_cons]
        omega

theorem stripTagsAux_of_noTag {s : List Char} (h : noTagB s = true) :
    ∀ fuel, s.length ≤ fuel → stripTagsAux fuel s = s := by
  induction s with
  | nil => intro fuel _; cases fuel <;> rfl
  | cons c rest ih =>
    intro fuel hf
    cases fuel with
    | zero => simp at hf
    | succ fuel =>
      by_cases hc : c = '<'
      · subst hc
        have h' : rest.contains '>' = false := by
          simpa only [noTagB, eq_self_iff_true, if_true, Bool.not_eq_true']
            using h
        have hnone : splitAtChar '>' rest = none := splitAtChar_none_iff.mpr h'
        simp only [stripTagsAux, eq_self_iff_true, if_true, hnone]
      · have hrest : noTagB rest = true := by
          simpa only [noTagB, if_neg hc] using h
        simp only [stripTagsAux, if_neg hc]
        rw [ih hrest fuel (by simp only [List.length_cons] at hf; omega)]

theorem noTag_stripTagsAux {fuel : Nat} :
    ∀ {s : List Char}, s.length ≤ fuel → noTagB (stripTagsAux fuel s) = true := by
  induction fuel with
  | zero =>
    intro s hf
    have : s = [] := List.length_eq_zero.mp (Nat.le_zero.mp hf)
    subst this
    rfl
  | succ fuel ih =>
    intro s hf
    cases s with
    | nil => rfl
    | cons c rest =>
      by_cases hc : c = '<'
      · subst hc
        cases hsp : splitAtChar '>' rest with
        | some p =>
          simp only [stripTagsAux, eq_self_iff_true, if_true, hsp]
          have hlt := splitAtChar_some_length hsp
          exact ih (by simp only [List.length_cons] at hf hlt; omega)
        | none =>
          simp only [stripTagsAux, eq_self_iff_true, if_true, hsp, noTagB,
            splitAtChar_none_iff.mp hsp]
          rfl
      · simp only [stripTagsAux, if_neg hc, noTagB]
        exact ih (by simp only [List.length_cons] at hf; omega)

/-- **C9.**  Markup-tag stripping is idempotent: stripping an
already-stripped text leaves it unchanged. -/
theorem removeHTMLTags_idempotent (s : String) :
    removeHTMLTags (removeHTMLTags s) = removeHTMLTags s := by
  unfold removeHTMLTags
  have hd : (String.mk (stripTagsAux s.data.length s.data)).data =
      stripTagsAux s.data.length s.data := rfl
  rw [hd]
  rw [stripTagsAux_of_noTag (noTag_stripTagsAux (le_refl _)) _ (le_refl _)]

/-! ## Claim C7: pass-through of bare IDs -/

theorem list_length_le_sum_utf8 (l : List Char) :
    l.length ≤ (l.map Char.utf8Size).sum := by
  induction l with
  | nil => simp
  | cons c rest ih =>
    simp only [List.length_cons, List.map_cons, List.sum_cons]
    have := Char.utf8Size_pos c
    omega

theorem length_le_goLen (s : String) : s.data.length ≤ goLen s :=
  list_length_le_sum_utf8 s.data

/-- When neither trigger of the extraction branch fires — no `youtu`
substring, none of `"?&/<%=` — the candidate passes through
unchanged. -/
theorem extractStep_id {s : String}
    (h1 : containsSub (("youtu").data) s.data = false)
    (h2 : goContainsAny s ['"', '?', '&', '/', '<', '%', '='] = false) :
    extractStep s = s := by
  simp [extractStep, h1, h2]

theorem goContainsAny_of_parts {s : String}
    (h2 : goContainsAny s ['?', '&', '/', '<', '%', '='] = false)
    (hq : ¬ ('"' ∈ s.data)) :
    goContainsAny s ['"', '?', '&', '/', '<', '%', '='] = false := by
  simp only [goContainsAny, List.any_eq_false] at h2 ⊢
  intro c hc
  have h6 := h2 c hc
  have hqc : ¬ c = '"' := by
    intro hcq
    subst hcq
    exact hq hc
  intro hcontra
  rw [List.contains_cons] at hcontra
  have hbe : (c == '"') = false := beq_eq_false_iff_ne.mpr hqc
  rw [hbe, Bool.false_or] at hcontra
  exact h6 hcontra

/-- **C7 (amended).**  Every input of eleven or more characters that
contains no reserved character, no double quote, and not the substring
`youtu` is returned unchanged.  (As stated the claim is false: the
extraction branch also fires on inputs containing `youtu` or `"`, and
can then shorten the candidate to its first eleven-character token.) -/
theorem ExtractVideoID_unchanged (s : String)
    (hyoutu : containsSub (("youtu").data) s.data = false)
    (hquote : ¬ ('"' ∈ s.data))
    (hres : goContainsAny s ['?', '&', '/', '<', '%', '='] = false)
    (hlen : 11 ≤ s.data.length) :
    ExtractVideoID s = .ok s := by
  have hstep : extractStep s = s :=
    extractStep_id hyoutu (goContainsAny_of_parts hres hquote)
  have hgl : ¬ goLen s < 10 := by
    have := length_le_goLen s
    omega
  simp only [ExtractVideoID, hstep, hres, Bool.false_eq_true, if_false, hgl,
    if_true]

/-- Witness for the amended C7. -/
theorem ExtractVideoID_unchanged_witness :
    ExtractVideoID ("abcdefghijkl") = .ok ("abcdefghijkl") :=
  ExtractVideoID_unchanged ("abcdefghijkl") (by decide) (by decide) (by decide)
    (by decide)

/-- **Counterexample to C7 as stated.**  `youtuberID123` is a
thirteen-character string with no reserved characters, yet the resolver
does not return it unchanged: the `youtu` substring triggers
extraction, and the catch-all third pattern captures the first eleven
characters. -/
theorem ExtractVideoID_unchanged_counterexample :
    goContainsAny ("youtuberID123") ['?', '&', '/', '<', '%', '='] = false ∧
    11 ≤ ("youtuberID123").data.length ∧
    ExtractVideoID ("youtuberID123") = .ok ("youtuberID1") ∧
    ExtractVideoID ("youtuberID123") ≠ .ok ("youtuberID123") :=
  ⟨by decide, by decide, by decide, by decide⟩

/-! ## Characterization of the catalog builder (claims C4, C8, C10) -/

/-- The kind field of a raw track value, with Go's zero-value
degradation. -/
def trackKind (v : JValue) : String :=
  jAsStr (mapLookup (jAsObj (some v)) ("kind"))

/-- The language code of a raw track value, with Go's zero-value
degradation. -/
def trackLang (v : JValue) : String :=
  jAsStr (mapLookup (jAsObj (some v)) ("languageCode"))

/-- The descriptor the catalog holds at language code `c` in the
mapping of class `gen` (`true` = generated): the descriptor of the last
track of that class and language code, since later assignments
overwrite earlier ones. -/
def classifiedFor (videoID : String) (gen : Bool) (tracks : List JValue)
    (c : String) : Option Transcript :=
  ((tracks.filter
      (fun v => ((trackKind v == "asr") == gen) && (trackLang v == c))).map
    (trackToTranscript videoID)).getLast?

theorem classifiedFor_append_singleton (videoID : String) (gen : Bool)
    (l : List JValue) (t : JValue) (c : String) :
    classifiedFor videoID gen (l ++ [t]) c =
      if ((trackKind t == "asr") == gen) && (trackLang t == c) then
        some (trackToTranscript videoID t)
      else classifiedFor videoID gen l c := by
  unfold classifiedFor
  rw [List.filter_append]
  by_cases hp : (((trackKind t == "asr") == gen) && (trackLang t == c)) = true
  · rw [if_pos hp]
    rw [show List.filter
        (fun v => ((trackKind v == "asr") == gen) && (trackLang v == c)) [t] =
        [t] by simp [List.filter_cons, hp]]
    rw [List.map_append]
    exact List.getLast?_concat _
  · rw [if_neg hp]
    rw [show List.filter
        (fun v => ((trackKind v == "asr") == gen) && (trackLang v == c)) [t] =
        [] by simp [List.filter_cons, Bool.of_not_eq_true hp]]
    rw [List.append_nil]

theorem lookup_buildMaps (videoID : String) (tracks : List JValue) :
    ∀ (acc : GoMap Transcript × GoMap Transcript) (c : String),
      (mapLookup (List.foldl (addTrack videoID) acc tracks).1 c =
        match classifiedFor videoID false tracks c with
        | some t => some t
        | none => mapLookup acc.1 c) ∧
      (mapLookup (List.foldl (addTrack videoID) acc tracks).2 c =
        match classifiedFor videoID true tracks c with
        | some t => some t
        | none => mapLookup acc.2 c) := by
  induction tracks using List.reverseRecOn with
  | nil => intro acc c; exact ⟨rfl, rfl⟩
  | append_singleton l t ih =>
    intro acc c
    rw [List.foldl_append]
    simp only [List.foldl_cons, List.foldl_nil]
    have hlang : (trackToTranscript videoID t).LanguageCode = trackLang t := rfl
    cases hgen : trackKind t == "asr" with
    | true =>
      have hgen' : (trackToTranscript videoID t).IsGenerated = true := hgen
      have haddt : addTrack videoID (List.foldl (addTrack videoID) acc l) t =
          ((List.foldl (addTrack videoID) acc l).1,
            mapInsert (List.foldl (addTrack videoID) acc l).2
              (trackToTranscript videoID t).LanguageCode
              (trackToTranscript videoID t)) := by
        simp only [addTrack, hgen', if_true]
      rw [haddt]
      constructor
      · -- manual map untouched by a generated track
        rw [show (((List.foldl (addTrack videoID) acc l).1,
            mapInsert (List.foldl (addTrack videoID) acc l).2
              (trackToTranscript videoID t).LanguageCode
              (trackToTranscript videoID t))).1 =
            (List.foldl (addTrack videoID) acc l).1 from rfl]
        rw [(ih acc c).1, classifiedFor_append_singleton]
        rw [show ((trackKind t == "asr") == false) = false by rw [hgen]; rfl]
        rw [Bool.false_and, if_neg (by simp)]
      · rw [show (((List.foldl (addTrack videoID) acc l).1,
            mapInsert (List.foldl (addTrack videoID) acc l).2
              (trackToTranscript videoID t).LanguageCode
              (trackToTranscript videoID t))).2 =
            mapInsert (List.foldl (addTrack videoID) acc l).2
              (trackToTranscript videoID t).LanguageCode
              (trackToTranscript videoID t) from rfl]
        rw [mapLookup_insert, classifiedFor_append_singleton]
        rw [show ((trackKind t == "asr") == true) = true by rw [hgen]; rfl]
        rw [Bool.true_and]
        by_cases hceq : trackLang t = c
        · rw [if_pos (beq_iff_eq.mpr hceq), hlang,
            if_pos (by rw [hceq])]
        · have h1 : ¬ c = (trackToTranscript videoID t).LanguageCode := by
            rw [hlang]; exact fun hh => hceq hh.symm
          have h2 : ¬ ((trackLang t == c) = true) := by simpa using hceq
          rw [if_neg h2, if_neg h1, (ih acc c).2]
    | false =>
      have hgen' : (trackToTranscript videoID t).IsGenerated = false := hgen
      have haddt : addTrack videoID (List.foldl (addTrack videoID) acc l) t =
          (mapInsert (List.foldl (addTrack videoID) acc l).1
              (trackToTranscript videoID t).LanguageCode
              (trackToTranscript videoID t),
            (List.foldl (addTrack videoID) acc l).2) := by
        simp only [addTrack, hgen', Bool.false_eq_true, if_false]
      rw [haddt]
      constructor
      · rw [show ((mapInsert (List.foldl (addTrack videoID) acc l).1
            (trackToTranscript videoID t).LanguageCode
            (trackToTranscript videoID t),
            (List.foldl (addTrack videoID) acc l).2)).1 =
            mapInsert (List.foldl (addTrack videoID) acc l).1
              (trackToTranscript videoID t).LanguageCode
              (trackToTranscript videoID t) from rfl]
        rw [mapLookup_insert, classifiedFor_append_singleton]
        rw [show ((trackKind t == "asr") == false) = true by rw [hgen]; rfl]
        rw [Bool.true_and]
        by_cases hceq : trackLang t = c
        · rw [if_pos (beq_iff_eq.mpr hceq), hlang,
            if_pos (by rw [hceq])]
        · have h1 : ¬ c = (trackToTranscript videoID t).LanguageCode := by
            rw [hlang]; exact fun hh => hceq hh.symm
          have h2 : ¬ ((trackLang t == c) = true) := by simpa using hceq
          rw [if_neg h2, if_neg h1, (ih acc c).1]
      · rw [show ((mapInsert (List.foldl (addTrack videoID) acc l).1
            (trackToTranscript videoID t).LanguageCode
            (trackToTranscript videoID t),
            (List.foldl (addTrack videoID) acc l).2)).2 =
            (List.foldl (addTrack videoID) acc l).2 from rfl]
        rw [(ih acc c).2, classifiedFor_append_singleton]
        rw [show ((trackKind t == "asr") == true) = false by rw [hgen]; rfl]
        rw [Bool.false_and, if_neg (by simp)]

/-! ## Claim C4: classification into the two mappings -/

/-- Helper: the two mappings of a built catalog, characterized via
`classifiedFor`. -/
theorem buildTranscriptList_lookup (videoID : String)
    (cj : GoMap JValue) (tracks : List JValue) (tl : TranscriptList)
    (h : mapLookup cj ("captionTracks") = some (JValue.arr tracks))
    (htl : buildTranscriptList videoID cj = .ok tl) :
    ∀ c,
      mapLookup tl.GeneratedTranscripts c =
        classifiedFor videoID true tracks c ∧
      mapLookup tl.ManuallyCreatedTranscripts c =
        classifiedFor videoID false tracks c := by
  have hbu : buildTranscriptList videoID cj =
      .ok { VideoID := videoID,
            ManuallyCreatedTranscripts :=
              (List.foldl (addTrack videoID) ([], []) tracks).1,
            GeneratedTranscripts :=
              (List.foldl (addTrack videoID) ([], []) tracks).2 } := by
    simp only [buildTranscriptList, h]
  rw [hbu] at htl
  have htleq := Except.ok.inj htl
  subst htleq
  intro c
  constructor
  · show mapLookup (List.foldl (addTrack videoID) ([], []) tracks).2 c = _
    rw [(lookup_buildMaps videoID tracks ([], []) c).2]
    cases classifiedFor videoID true tracks c <;> rfl
  · show mapLookup (List.foldl (addTrack videoID) ([], []) tracks).1 c = _
    rw [(lookup_buildMaps videoID tracks ([], []) c).1]
    cases classifiedFor videoID false tracks c <;> rfl

/-- **C4.**  When `captionTracks` is a sequence, the built catalog
holds, at each language code and in each mapping, exactly the
descriptor of the last track with that language code whose kind is
`"asr"` (generated mapping) respectively not `"asr"` (human-authored
mapping) — i.e. every `"asr"` track is assigned into the generated
mapping and every other track into the human-authored one, keyed by
its language code, later tracks overwriting earlier ones. -/
theorem buildTranscriptList_classification (videoID : String)
    (cj : GoMap JValue) (tracks : List JValue) (tl : TranscriptList)
    (h : mapLookup cj ("captionTracks") = some (JValue.arr tracks))
    (htl : buildTranscriptList videoID cj = .ok tl) :
    ∀ c,
      mapLookup tl.GeneratedTranscripts c =
        classifiedFor videoID true tracks c ∧
      mapLookup tl.ManuallyCreatedTranscripts c =
        classifiedFor videoID false tracks c :=
  buildTranscriptList_lookup videoID cj tracks tl h htl

/-- The single-track caption JSON of end-to-end scenario B. -/
def c4Track : JValue :=
  .obj [("languageCode", .str ("en")), ("kind", .str ("asr")),
        ("baseUrl", .str ("u")),
        ("name", .obj [("simpleText", .str ("English"))])]

def c4CJ : GoMap JValue := [("captionTracks", JValue.arr [c4Track])]

def c4TL : TranscriptList :=
  { VideoID := "videoID",
    ManuallyCreatedTranscripts := [],
    GeneratedTranscripts :=
      [("en", { VideoID := "videoID", URL := "u", Language := "English",
                LanguageCode := "en", IsGenerated := true })] }

/-- Witness for C4: end-to-end scenario B — one `asr` track yields an
empty human-authored mapping and a generated mapping containing exactly
`"en"`. -/
theorem buildTranscriptList_classification_witness :
    buildTranscriptList ("videoID") c4CJ = .ok c4TL ∧
    mapLookup c4TL.GeneratedTranscripts ("en") =
      some { VideoID := "videoID", URL := "u", Language := "English",
             LanguageCode := "en", IsGenerated := true } ∧
    c4TL.ManuallyCreatedTranscripts = [] := by
  refine ⟨by decide, ?_, by decide⟩
  rw [(buildTranscriptList_classification ("videoID") c4CJ [c4Track] c4TL rfl
    (by decide) ("en")).1]
  decide

/-! ## Claim C10: catalog invariants -/

theorem mem_of_getLast_opt {α : Type} :
    ∀ {l : List α} {a : α}, l.getLast? = some a → a ∈ l := by
  intro l
  induction l with
  | nil => intro a h; cases h
  | cons x xs ih =>
    intro a h
    cases xs with
    | nil =>
      rw [List.getLast?_singleton] at h
      rw [Option.some.injEq] at h
      subst h
      exact List.mem_singleton_self x
    | cons y ys =>
      rw [List.getLast?_cons_cons] at h
      exact List.mem_cons_of_mem _ (ih h)

theorem classifiedFor_props {videoID : String} {gen : Bool}
    {tracks : List JValue} {c : String} {t : Transcript}
    (h : classifiedFor videoID gen tracks c = some t) :
    t.VideoID = videoID ∧ t.IsGenerated = gen ∧ t.LanguageCode = c := by
  unfold classifiedFor at h
  have hmem := mem_of_getLast_opt h
  obtain ⟨v, hvmem, hvt⟩ := List.mem_map.mp hmem
  obtain ⟨hvl, hpred⟩ := List.mem_filter.mp hvmem
  rw [Bool.and_eq_true] at hpred
  obtain ⟨hkind, hlang⟩ := hpred
  subst hvt
  refine ⟨rfl, ?_, ?_⟩
  · show (trackKind v == "asr") = gen
    exact beq_iff_eq.mp hkind
  · show trackLang v = c
    exact beq_iff_eq.mp hlang

/-- **C10.**  For every accepted caption configuration, every
descriptor in either mapping of the built catalog carries the catalog's
video ID, the generated flag matching its mapping, and is keyed by its
own language code. -/
theorem buildTranscriptList_invariants (videoID : String)
    (cj : GoMap JValue) (tl : TranscriptList)
    (h : buildTranscriptList videoID cj = .ok tl) :
    tl.VideoID = videoID ∧
    ∀ c t,
      (mapLookup tl.GeneratedTranscripts c = some t →
        t.VideoID = videoID ∧ t.IsGenerated = true ∧ t.LanguageCode = c) ∧
      (mapLookup tl.ManuallyCreatedTranscripts c = some t →
        t.VideoID = videoID ∧ t.IsGenerated = false ∧ t.LanguageCode = c) := by
  cases hcj : mapLookup cj ("captionTracks") with
  | none =>
    simp only [buildTranscriptList, hcj] at h
    exact Except.noConfusion h
  | some v =>
    cases v with
    | arr tracks =>
      have hbu : buildTranscriptList videoID cj =
          .ok { VideoID := videoID,
                ManuallyCreatedTranscripts :=
                  (List.foldl (addTrack videoID) ([], []) tracks).1,
                GeneratedTranscripts :=
                  (List.foldl (addTrack videoID) ([], []) tracks).2 } := by
        simp only [buildTranscriptList, hcj]
      rw [hbu] at h
      have htleq := Except.ok.inj h
      subst htleq
      refine ⟨rfl, fun c t => ⟨fun hg => ?_, fun hm => ?_⟩⟩
      · have hg' : (match classifiedFor videoID true tracks c with
            | some t' => some t'
            | none => mapLookup (([], []) :
                GoMap Transcript × GoMap Transcript).2 c) = some t := by
          rw [← (lookup_buildMaps videoID tracks ([], []) c).2]
          exact hg
        cases hcl : classifiedFor videoID true tracks c with
        | none => rw [hcl] at hg'; cases hg'
        | some t' =>
          rw [hcl] at hg'
          rw [Option.some.injEq] at hg'
          subst hg'
          exact classifiedFor_props hcl
      · have hm' : (match classifiedFor videoID false tracks c with
            | some t' => some t'
            | none => mapLookup (([], []) :
                GoMap Transcript × GoMap Transcript).1 c) = some t := by
          rw [← (lookup_buildMaps videoID tracks ([], []) c).1]
          exact hm
        cases hcl : classifiedFor videoID false tracks c with
        | none => rw [hcl] at hm'; cases hm'
        | some t' =>
          rw [hcl] at hm'
          rw [Option.some.injEq] at hm'
          subst hm'
          exact classifiedFor_props hcl
    | null =>
      simp only [buildTranscriptList, hcj] at h
      exact Except.noConfusion h
    | jbool b =>
      simp only [buildTranscriptList, hcj] at h
      exact Except.noConfusion h
    | num l =>
      simp only [buildTranscriptList, hcj] at h
      exact Except.noConfusion h
    | str s =>
      simp only [buildTranscriptList, hcj] at h
      exact Except.noConfusion h
    | obj fields =>
      simp only [buildTranscriptList, hcj] at h
      exact Except.noConfusion h

def c10CJ : GoMap JValue :=
  [("captionTracks", JValue.arr
    [.obj [("languageCode", .str ("en")), ("kind", .str ("asr")),
           ("baseUrl", .str ("u"))]])]

def c10TL : TranscriptList :=
  { VideoID := "vid10",
    ManuallyCreatedTranscripts := [],
    GeneratedTranscripts :=
      [("en", { VideoID := "vid10", URL := "u", Language := "",
                LanguageCode := "en", IsGenerated := true })] }

/-- Witness for C10 at a concrete one-track catalog. -/
theorem buildTranscriptList_invariants_witness :
    ({ VideoID := "vid10", URL := "u", Language := "",
       LanguageCode := "en", IsGenerated := true } : Transcript).VideoID =
        "vid10" ∧
    ({ VideoID := "vid10", URL := "u", Language := "",
       LanguageCode := "en", IsGenerated := true } : Transcript).IsGenerated =
        true ∧
    ({ VideoID := "vid10", URL := "u", Language := "",
       LanguageCode := "en", IsGenerated := true } : Transcript).LanguageCode =
        "en" :=
  ((buildTranscriptList_invariants ("vid10") c10CJ c10TL (by decide)).2
    ("en") _).1 (by decide)

/-! ## Claim C8: `InvalidFormat`, per-field degradation, and per-track
locality -/

theorem filter_set_eq {α : Type} (p : α → Bool) :
    ∀ (l : List α) (i : Nat) (hi : i < l.length) (r : α),
      p (l.get ⟨i, hi⟩) = false → p r = false →
      (l.set i r).filter p = l.filter p := by
  intro l
  induction l with
  | nil => intro i hi; simp at hi
  | cons x xs ih =>
    intro i hi r h1 h2
    cases i with
    | zero =>
      simp only [List.set]
      rw [List.filter_cons, List.filter_cons]
      have hx : p x = false := h1
      rw [hx, h2]
      rfl
    | succ j =>
      simp only [List.set]
      rw [List.filter_cons, List.filter_cons]
      have hj : j < xs.length := by simpa using hi
      have h1' : p (xs.get ⟨j, hj⟩) = false := h1
      rw [ih j hj r h1' h2]

theorem classifiedFor_set (videoID : String) (gen : Bool)
    (tracks : List JValue) (i : Nat) (hi : i < tracks.length)
    (repl : JValue) (c : String)
    (h1 : ¬ c = trackLang (tracks.get ⟨i, hi⟩))
    (h2 : ¬ c = trackLang repl) :
    classifiedFor videoID gen (tracks.set i repl) c =
      classifiedFor videoID gen tracks c := by
  unfold classifiedFor
  rw [filter_set_eq _ tracks i hi repl ?hp1 ?hp2]
  case hp1 =>
    have hb : (trackLang (tracks.get ⟨i, hi⟩) == c) = false :=
      beq_eq_false_iff_ne.mpr (fun hh => h1 hh.symm)
    show (((trackKind (tracks.get ⟨i, hi⟩) == "asr") == gen) &&
        (trackLang (tracks.get ⟨i, hi⟩) == c)) = false
    rw [hb, Bool.and_false]
  case hp2 =>
    have hb : (trackLang repl == c) = false :=
      beq_eq_false_iff_ne.mpr (fun hh => h2 hh.symm)
    show (((trackKind repl == "asr") == gen) && (trackLang repl == c)) = false
    rw [hb, Bool.and_false]

/-- **C8 (amended).**  `buildTranscriptList` fails with `InvalidFormat`
exactly when `captionTracks` is absent or not a sequence; missing or
mistyped fields within a single track degrade to empty-string values in
that track's descriptor; and replacing one track by an arbitrary value
leaves both mappings unchanged at every language code other than the
replaced track's (degraded) key and the replacement's key.  (As stated
the claim is false: when the corrupted track's degraded key collides
with another track's key, that other track's entry is overwritten.) -/
theorem buildTranscriptList_resilience (videoID : String) :
    (∀ cj : GoMap JValue,
      buildTranscriptList videoID cj = .error .invalidFormat ↔
        ∀ tracks, mapLookup cj ("captionTracks") ≠ some (JValue.arr tracks)) ∧
    (∀ v : JValue, (∀ fields, v ≠ JValue.obj fields) →
      trackToTranscript videoID v =
        { VideoID := videoID, URL := "", Language := "", LanguageCode := "",
          IsGenerated := false }) ∧
    (∀ v : JValue,
      (∀ s2, mapLookup (jAsObj (some v)) ("languageCode") ≠
          some (JValue.str s2)) →
      (trackToTranscript videoID v).LanguageCode = "") ∧
    (∀ v : JValue,
      (∀ s2, mapLookup (jAsObj (some v)) ("baseUrl") ≠
          some (JValue.str s2)) →
      (trackToTranscript videoID v).URL = "") ∧
    (∀ (cj cj' : GoMap JValue) (tracks : List JValue) (i : Nat)
        (hi : i < tracks.length) (repl : JValue)
        (tl tl' : TranscriptList) (c : String),
      mapLookup cj ("captionTracks") = some (JValue.arr tracks) →
      mapLookup cj' ("captionTracks") =
        some (JValue.arr (tracks.set i repl)) →
      buildTranscriptList videoID cj = .ok tl →
      buildTranscriptList videoID cj' = .ok tl' →
      ¬ c = trackLang (tracks.get ⟨i, hi⟩) → ¬ c = trackLang repl →
      mapLookup tl.ManuallyCreatedTranscripts c =
        mapLookup tl'.ManuallyCreatedTranscripts c ∧
      mapLookup tl.GeneratedTranscripts c =
        mapLookup tl'.GeneratedTranscripts c) := by
  refine ⟨?_, ?_, ?_, ?_, ?_⟩
  · intro cj
    cases hcj : mapLookup cj ("captionTracks") with
    | none =>
      refine ⟨fun _ tracks heq => ?_, fun _ => ?_⟩
      · cases heq
      · simp only [buildTranscriptList, hcj]
    | some v =>
      cases v with
      | arr tracks =>
        refine ⟨fun herr => ?_, fun hall => ?_⟩
        · have hok : buildTranscriptList videoID cj =
              .ok { VideoID := videoID,
                    ManuallyCreatedTranscripts :=
                      (List.foldl (addTrack videoID) ([], []) tracks).1,
                    GeneratedTranscripts :=
                      (List.foldl (addTrack videoID) ([], []) tracks).2 } := by
            simp only [buildTranscriptList, hcj]
          rw [hok] at herr
          exact Except.noConfusion herr
        · exact absurd rfl (hall tracks)
      | null =>
        refine ⟨fun _ tracks heq => ?_, fun _ => ?_⟩
        · simp at heq
        · simp only [buildTranscriptList, hcj]
      | jbool b =>
        refine ⟨fun _ tracks heq => ?_, fun _ => ?_⟩
        · simp at heq
        · simp only [buildTranscriptList, hcj]
      | num lx =>
        refine ⟨fun _ tracks heq => ?_, fun _ => ?_⟩
        · simp at heq
        · simp only [buildTranscriptList, hcj]
      | str sx =>
        refine ⟨fun _ tracks heq => ?_, fun _ => ?_⟩
        · simp at heq
        · simp only [buildTranscriptList, hcj]
      | obj fieldsx =>
        refine ⟨fun _ tracks heq => ?_, fun _ => ?_⟩
        · simp at heq
        · simp only [buildTranscriptList, hcj]
  · intro v hv
    cases v with
    | obj fields => exact absurd rfl (hv fields)
    | null => rfl
    | jbool b => rfl
    | num lx => rfl
    | str sx => rfl
    | arr lx => rfl
  · intro v hv
    have hfield : (trackToTranscript videoID v).LanguageCode =
        jAsStr (mapLookup (jAsObj (some v)) ("languageCode")) := rfl
    rw [hfield]
    cases hlk : mapLookup (jAsObj (some v)) ("languageCode") with
    | none => rfl
    | some x =>
      cases x with
      | str s2 => exact absurd hlk (hv s2)
      | null => rfl
      | jbool b => rfl
      | num lx => rfl
      | arr lx => rfl
      | obj fx => rfl
  · intro v hv
    have hfield : (trackToTranscript videoID v).URL =
        jAsStr (mapLookup (jAsObj (some v)) ("baseUrl")) := rfl
    rw [hfield]
    cases hlk : mapLookup (jAsObj (some v)) ("baseUrl") with
    | none => rfl
    | some x =>
      cases x with
      | str s2 => exact absurd hlk (hv s2)
      | null => rfl
      | jbool b => rfl
      | num lx => rfl
      | arr lx => rfl
      | obj fx => rfl
  · intro cj cj' tracks i hi repl tl tl' c hcj hcj' htl htl' hc1 hc2
    have hA := buildTranscriptList_lookup videoID cj tracks tl hcj htl c
    have hB := buildTranscriptList_lookup videoID cj'
      (tracks.set i repl) tl' hcj' htl' c
    refine ⟨?_, ?_⟩
    · rw [hA.2, hB.2, classifiedFor_set videoID false tracks i hi repl c hc1 hc2]
    · rw [hA.1, hB.1, classifiedFor_set videoID true tracks i hi repl c hc1 hc2]

def c8TrackA : JValue := .obj [("baseUrl", .str ("a"))]

def c8TrackB : JValue :=
  .obj [("languageCode", .str ("en")), ("baseUrl", .str ("b"))]

/-- `c8TrackB` with its `languageCode` field mistyped (a number), so it
degrades to the empty-string key. -/
def c8TrackBbad : JValue :=
  .obj [("languageCode", .num ("5")), ("baseUrl", .str ("b"))]

/-- **Counterexample to C8 as stated.**  Track A has no language code
(key `""`); corrupting track B's `languageCode` to a number makes B
degrade to key `""` as well, overwriting A's entry: corrupting one
track's fields *can* drop another track's entry. -/
theorem buildTranscriptList_resilience_counterexample :
    buildTranscriptList ("v")
        [("captionTracks", JValue.arr [c8TrackA, c8TrackB])] =
      .ok { VideoID := "v",
            ManuallyCreatedTranscripts :=
              [("", { VideoID := "v", URL := "a", Language := "",
                      LanguageCode := "", IsGenerated := false }),
               ("en", { VideoID := "v", URL := "b", Language := "",
                        LanguageCode := "en", IsGenerated := false })],
            GeneratedTranscripts := [] } ∧
    buildTranscriptList ("v")
        [("captionTracks", JValue.arr [c8TrackA, c8TrackBbad])] =
      .ok { VideoID := "v",
            ManuallyCreatedTranscripts :=
              [("", { VideoID := "v", URL := "b", Language := "",
                      LanguageCode := "", IsGenerated := false })],
            GeneratedTranscripts := [] } ∧
    mapLookup
        ([("", { VideoID := "v", URL := "b", Language := "",
                 LanguageCode := "", IsGenerated := false })] :
          GoMap Transcript) ("") ≠
      some { VideoID := "v", URL := "a", Language := "",
             LanguageCode := "", IsGenerated := false } := by
  refine ⟨by decide, by decide, by decide⟩

def c8TrackC : JValue :=
  .obj [("languageCode", .str ("fr")), ("baseUrl", .str ("c"))]

/-- Witness for the amended C8: corrupting the second track does not
touch the `"fr"` entry of the first. -/
theorem buildTranscriptList_resilience_witness :
    mapLookup
        ([("fr", { VideoID := "v", URL := "c", Language := "",
                   LanguageCode := "fr", IsGenerated := false }),
          ("en", { VideoID := "v", URL := "b", Language := "",
                   LanguageCode := "en", IsGenerated := false })] :
          GoMap Transcript) ("fr") =
      mapLookup
        ([("fr", { VideoID := "v", URL := "c", Language := "",
                   LanguageCode := "fr", IsGenerated := false }),
          ("", { VideoID := "v", URL := "b", Language := "",
                 LanguageCode := "", IsGenerated := false })] :
          GoMap Transcript) ("fr") ∧
    mapLookup ([] : GoMap Transcript) ("fr") =
      mapLookup ([] : GoMap Transcript) ("fr") :=
  (buildTranscriptList_resilience ("v")).2.2.2.2
    [("captionTracks", JValue.arr [c8TrackC, c8TrackB])]
    [("captionTracks", JValue.arr [c8TrackC, c8TrackBbad])]
    [c8TrackC, c8TrackB] 1 (by decide) c8TrackBbad
    ({ VideoID := "v",
       ManuallyCreatedTranscripts :=
         [("fr", { VideoID := "v", URL := "c", Language := "",
                   LanguageCode := "fr", IsGenerated := false }),
          ("en", { VideoID := "v", URL := "b", Language := "",
                   LanguageCode := "en", IsGenerated := false })],
       GeneratedTranscripts := [] } : TranscriptList)
    ({ VideoID := "v",
       ManuallyCreatedTranscripts :=
         [("fr", { VideoID := "v", URL := "c", Language := "",
                   LanguageCode := "fr", IsGenerated := false }),
          ("", { VideoID := "v", URL := "b", Language := "",
                 LanguageCode := "", IsGenerated := false })],
       GeneratedTranscripts := [] } : TranscriptList)
    ("fr") rfl rfl (by decide) (by decide) (by decide) (by decide)

/-! ## Claim C6: the transcript decoder -/

theorem entriesOf_length {ns : List XmlNode} {es : List TranscriptEntry}
    (h : entriesOf ns = some es) : es.length = ns.length := by
  induction ns generalizing es with
  | nil =>
    simp only [entriesOf, Option.some.injEq] at h
    subst h
    rfl
  | cons n ns ih =>
    simp only [entriesOf] at h
    cases he : entryOfElem n with
    | none => rw [he] at h; cases h
    | some e =>
      rw [he] at h
      cases ho : entriesOf ns with
      | none => rw [ho] at h; cases h
      | some l =>
        rw [ho] at h
        simp only [Option.map_some', Option.some.injEq] at h
        subst h
        simp only [List.length_cons, ih ho]

theorem entriesOf_get {ns : List XmlNode} {es : List TranscriptEntry}
    (h : entriesOf ns = some es) :
    ∀ i (hi : i < ns.length) (hi' : i < es.length),
      entryOfElem (ns.get ⟨i, hi⟩) = some (es.get ⟨i, hi'⟩) := by
  induction ns generalizing es with
  | nil => intro i hi; simp at hi
  | cons n ns ih =>
    simp only [entriesOf] at h
    cases he : entryOfElem n with
    | none => rw [he] at h; cases h
    | some e =>
      rw [he] at h
      cases ho : entriesOf ns with
      | none => rw [ho] at h; cases h
      | some l =>
        rw [ho] at h
        simp only [Option.map_some', Option.some.injEq] at h
        subst h
        intro i hi hi'
        cases i with
        | zero => exact he
        | succ j =>
          exact ih ho j (by simpa using hi) (by simpa using hi')

theorem entriesOf_none_iff {ns : List XmlNode} :
    entriesOf ns = none ↔ ∃ n ∈ ns, entryOfElem n = none := by
  induction ns with
  | nil => simp [entriesOf]
  | cons n ns ih =>
    cases he : entryOfElem n with
    | none =>
      constructor
      · intro _
        exact ⟨n, List.mem_cons_self n ns, he⟩
      · intro _
        simp only [entriesOf, he]
    | some e =>
      cases ho : entriesOf ns with
      | none =>
        constructor
        · intro _
          obtain ⟨m, hm, hme⟩ := ih.mp ho
          exact ⟨m, List.mem_cons_of_mem n hm, hme⟩
        · intro _
          simp only [entriesOf, he, ho, Option.map_none']
      | some l =>
        constructor
        · intro hnone
          simp only [entriesOf, he, ho, Option.map_some'] at hnone
          cases hnone
        · rintro ⟨x, hx, hxe⟩
          rcases List.mem_cons.mp hx with hxn | hxns
          · subst hxn
            rw [he] at hxe
            cases hxe
          · have hcontra := ih.mpr ⟨x, hxns, hxe⟩
            rw [ho] at hcontra
            cases hcontra

/-- **C6 (amended).**  For every timed-text document that XML-parses,
`parseTranscript` fails with `MalformedTranscriptXML` exactly when some
`<text>` child of the root fails to decode — a failure of one element
poisons the whole document; on success each `<text>` child, in document
order, yields one entry (its direct character data as text, its
attributes as offsets).  A present `start` attribute with non-numeric
content makes its element — hence the document — fail; an *absent*
attribute is not a failure but defaults to zero (the claim's "absence …
is a decode failure" is false on the code). -/
theorem parseTranscript_characterization (doc : String) (root : XmlNode)
    (h : parseXmlDoc doc = some root) :
    (parseTranscript doc = .error .malformedTranscriptXML ↔
      ∃ n ∈ textChildren root, entryOfElem n = none) ∧
    (∀ es, entriesOf (textChildren root) = some es →
      parseTranscript doc =
        .ok (es.map (fun e => { e with Text := removeHTMLTags e.Text })) ∧
      es.length = (textChildren root).length ∧
      ∀ i (hi : i < (textChildren root).length) (hi' : i < es.length),
        entryOfElem ((textChildren root).get ⟨i, hi⟩) =
          some (es.get ⟨i, hi'⟩)) ∧
    (∀ name attrs children v,
      parseGoFloat v = none →
      entryOfElem (XmlNode.elem name (("start", v) :: attrs) children) =
        none) ∧
    (∀ name children,
      entryOfElem (XmlNode.elem name [] children) =
        some { Text := childText children, Start := 0, Duration := 0 }) := by
  refine ⟨?_, ?_, ?_, ?_⟩
  · cases ho : entriesOf (textChildren root) with
    | none =>
      constructor
      · intro _
        exact entriesOf_none_iff.mp ho
      · intro _
        simp only [parseTranscript, h, ho]
    | some es =>
      constructor
      · intro herr
        simp only [parseTranscript, h, ho] at herr
        exact Except.noConfusion herr
      · intro hex
        have := entriesOf_none_iff.mpr hex
        rw [ho] at this
        cases this
  · intro es hes
    refine ⟨?_, entriesOf_length hes, entriesOf_get hes⟩
    simp only [parseTranscript, h, hes]
  · intro name attrs children v hv
    simp only [entryOfElem, attrFold, List.foldlM, hv]
    rfl
  · intro name children
    rfl

/-- **Counterexample to C6 as stated.**  A `<text>` element with *no*
`start`/`dur` attributes decodes fine — both offsets default to zero —
whereas the claim says absence of these attributes is a decode failure
for the whole document. -/
theorem parseTranscript_absent_attrs_counterexample :
    parseTranscript ("<transcript><text>Hi</text></transcript>") =
      .ok [{ Text := "Hi", Start := 0, Duration := 0 }] ∧
    parseTranscript ("<transcript><text>Hi</text></transcript>") ≠
      .error .malformedTranscriptXML := by
  refine ⟨by decide, by decide⟩

/-- Witness for the amended C6 at a two-attribute document. -/
theorem parseTranscript_characterization_witness :
    parseTranscript ("<transcript><text start=\"1\" dur=\"2\">A</text></transcript>") =
      .ok [{ Text := "A", Start := 1, Duration := 2 }] :=
  ((parseTranscript_characterization
      ("<transcript><text start=\"1\" dur=\"2\">A</text></transcript>")
      (XmlNode.elem ("transcript") []
        [XmlNode.elem ("text") [("start", "1"), ("dur", "2")]
          [XmlNode.cdata ['A']]])
      rfl).2.1
    [{ Text := "A", Start := 1, Duration := 2 }] (by decide)).1.trans
    (by decide)

/-! ## Claim C5: end-to-end scenario E -/

/-- Scenario E's document exactly as the claim states it: the root
element is itself the `<text>` element. -/
def c5Doc : String :=
  "<text start=\"1.0\" dur=\"2.5\">Hello &amp;<b>World</b></text>"

/-- Scenario E as the code actually realizes it: the `<text>` element
sits under a root element, and the markup/entity to be preserved is
escaped once more in the source (as in real timed-text payloads, which
double-escape; the XML tokenizer decodes one level and
`removeHTMLTags` then strips the now-literal `<b>` tags). -/
def c5DocAmended : String :=
  "<transcript><text start=\"1.0\" dur=\"2.5\">Hello &amp;amp;&lt;b&gt;World&lt;/b&gt;</text></transcript>"

/-- **Counterexample to C5 as stated.**  On the claim's document the
decoder returns *zero* entries — the struct field tagged `xml:"text"`
collects `<text>` children of the root, and here the root is the
`<text>` element itself, which has no `<text>` children — not one entry
with text `"Hello &amp;World"`. -/
theorem parseTranscript_scenarioE_counterexample :
    parseTranscript c5Doc = .ok [] ∧
    parseTranscript c5Doc ≠
      .ok [{ Text := "Hello &amp;World", Start := 1,
             Duration := mkRat 5 2 }] := by
  refine ⟨by decide, by decide⟩

set_option maxRecDepth 16000 in
set_option maxHeartbeats 1000000 in
/-- **C5 (amended).**  The wrapped, once-more-escaped scenario-E
document decodes to a single entry with start `1.0` (the rational `1`),
duration `2.5` (the rational `mkRat 5 2`), and text
`"Hello &amp;World"`: the markup tags that survive the XML layer are
stripped, while the HTML entity `&amp;` is left undecoded by this
layer. -/
theorem parseTranscript_scenarioE_amended :
    parseTranscript c5DocAmended =
      .ok [{ Text := "Hello &amp;World", Start := 1,
             Duration := mkRat 5 2 }] := by
  decide

end Ytt
